import Mathlib

/-!
Shallow embedding of the microdragon kernel build scripts:
scripts/pack.py, scripts/task.py, scripts/bootloader/bootloader.py and
scripts/bootloader/limine.py.  Python strings are modelled through their
character lists; the ASCII fragment of Python str.upper corresponds to
Char.toUpper.  Python dicts keyed by strings are modelled as association
lists with first-match lookup and in-place update.
-/

/-- VALID_ISO_CHARS from scripts/pack.py line 9: the characters 0x41..0x5A
(uppercase letters), 0x30..0x39 (digits) and underscore. -/
def VALID_ISO_CHARS : List Char :=
  ((List.range 26).map (fun i => Char.ofNat (0x41 + i))) ++
    ((List.range 10).map (fun i => Char.ofNat (0x30 + i))) ++ ['_']

/-- One character of the sanitising loop of make_iso_compliant
(scripts/pack.py lines 18-22): characters outside VALID_ISO_CHARS
become underscores. -/
def sanitizeChar (c : Char) : Char :=
  if c ∈ VALID_ISO_CHARS then c else '_'

/-- Helper for os.path.splitext: split a filename at its last dot,
returning the part before the last dot and the suffix starting at the
last dot; a name without a dot returns (name, []). -/
def splitOnLastDot : List Char → List Char × List Char
  | [] => ([], [])
  | c :: rest =>
    let r := splitOnLastDot rest
    if r.2.isEmpty then
      if c = '.' then ([], '.' :: rest) else (c :: rest, [])
    else (c :: r.1, r.2)

/-- os.path.splitext restricted to plain filenames (no path separators),
following CPython genericpath._splitext: split at the last dot unless every
character before that dot is itself a dot (leading dots do not start an
extension, so ".bashrc" has no extension). -/
def splitextList (l : List Char) : List Char × List Char :=
  let r := splitOnLastDot l
  if r.2.isEmpty || r.1.all (· == '.') then (l, []) else r

/-- Decimal digit character, as produced by Python's d format code. -/
def digitChar (d : Nat) : Char :=
  match d with
  | 0 => '0' | 1 => '1' | 2 => '2' | 3 => '3' | 4 => '4'
  | 5 => '5' | 6 => '6' | 7 => '7' | 8 => '8' | _ => '9'

/-- Fuel-driven decimal digit expansion (most significant digit first).
The fuel argument only forces structural termination; natDigits supplies
enough fuel for the value being printed. -/
def natDigitsAux : Nat → Nat → List Char
  | 0, n => [digitChar n]
  | fuel + 1, n =>
    if n < 10 then [digitChar n]
    else natDigitsAux fuel (n / 10) ++ [digitChar (n % 10)]

/-- Decimal digit string of a natural number, most significant digit first. -/
def natDigits (n : Nat) : List Char :=
  natDigitsAux n n

/-- Python's format specifier 02d applied to a natural number: the decimal
digits, left padded with a zero to a minimum width of two. -/
def pad2 (n : Nat) : List Char :=
  let s := natDigits n
  if s.length < 2 then '0' :: s else s

/-- The ISO_NUMBERING dict of scripts/pack.py: a mapping from truncated
name to the next collision sequence number. -/
abbrev ComplianceMap := List (String × Nat)

/-- Dict lookup: first binding of the key, if any. -/
def mapFind : ComplianceMap → String → Option Nat
  | [], _ => none
  | (k, v) :: rest, key => if k = key then some v else mapFind rest key

/-- Dict update: replace the binding of the key in place, or append it. -/
def mapSet : ComplianceMap → String → Nat → ComplianceMap
  | [], key, v => [(key, v)]
  | (k, w) :: rest, key, v =>
    if k = key then (key, v) :: rest else (k, w) :: mapSet rest key v

/-- The extension normalisation of make_iso_compliant (scripts/pack.py
lines 35-36): an uppercased extension longer than four characters
(including the dot) or holding a character outside VALID_ISO_CHARS after
the dot collapses to a bare dot. -/
def fixExt (e : List Char) : List Char :=
  if 4 < e.length ∨ (e.drop 1).any (fun c => decide (c ∉ VALID_ISO_CHARS)) then ['.']
  else e

/-- make_iso_compliant from scripts/pack.py lines 12-38, with the
ISO_NUMBERING dict threaded explicitly: split the filename into base and
extension, uppercase both, replace invalid base characters by underscores;
if the sanitised base is longer than eight characters or differs from the
uppercased base, truncate it to six characters and append the two digit
sequence number drawn from the numbering dict; finally normalise the
extension and concatenate. -/
def makeIsoCompliant (file : String) (numbering : ComplianceMap) :
    String × ComplianceMap :=
  let f := ((splitextList file.data).1).map Char.toUpper
  let e := ((splitextList file.data).2).map Char.toUpper
  let name := f.map sanitizeChar
  if 8 < name.length ∨ name ≠ f then
    let pfx := String.mk (name.take 6)
    match mapFind numbering pfx with
    | some number =>
      (String.mk (pfx.data ++ pad2 number ++ fixExt e),
        mapSet numbering pfx (number + 1))
    | none =>
      (String.mk (pfx.data ++ pad2 1 ++ fixExt e), mapSet numbering pfx 2)
  else
    (String.mk (name ++ fixExt e), numbering)

/-- Uppercased base of a filename as make_iso_compliant computes it. -/
def upperBase (file : String) : List Char :=
  ((splitextList file.data).1).map Char.toUpper

/-- Uppercased extension of a filename as make_iso_compliant computes it. -/
def upperExt (file : String) : List Char :=
  ((splitextList file.data).2).map Char.toUpper

/-- Sanitised uppercased base of a filename. -/
def sanBase (file : String) : List Char :=
  (upperBase file).map sanitizeChar

/-- The six character truncation used as numbering key for a filename. -/
def pfxOf (file : String) : String :=
  String.mk ((sanBase file).take 6)

/-- A filename takes the numbering branch of make_iso_compliant: its
sanitised base is longer than eight characters or sanitising changed a
character of the uppercased base. -/
def nonCompliant (file : String) : Prop :=
  8 < (sanBase file).length ∨ sanBase file ≠ upperBase file

instance (file : String) : Decidable (nonCompliant file) := by
  unfold nonCompliant; infer_instance

/-- The sequence number make_iso_compliant would hand out next for a
numbering key: the stored counter, or one for an unseen key. -/
def seqOf (m : ComplianceMap) (p : String) : Nat :=
  (mapFind m p).getD 1

/-- One file handled inside a packaging run: only the updated numbering
dict is retained. -/
def isoStep (m : ComplianceMap) (f : String) : ComplianceMap :=
  (makeIsoCompliant f m).2

/-- Numbering dict after a list of files has been handled, starting from
the given dict. -/
def runMapFrom (m : ComplianceMap) (files : List String) : ComplianceMap :=
  files.foldl isoStep m

/-- Numbering dict reached just before the i-th file of a packaging run
that started from the empty dict. -/
def mapBefore (files : List String) (i : Nat) : ComplianceMap :=
  runMapFrom [] (files.take i)

/-- Sequence number available to the i-th file of a run for its own
truncation key. -/
def numberAt (files : List String) (i : Nat) : Nat :=
  seqOf (mapBefore files i) (pfxOf (files.getD i ""))

/-- Compliant name produced for the i-th file of a packaging run started
from the empty dict. -/
def outputAt (files : List String) (i : Nat) : String :=
  (makeIsoCompliant (files.getD i "") (mapBefore files i)).1

/-- A whole packaging run: the compliant names of all files in order,
together with the final numbering dict. -/
def packageRun : List String → ComplianceMap → List String × ComplianceMap
  | [], m => ([], m)
  | f :: rest, m =>
    let r := makeIsoCompliant f m
    let rr := packageRun rest r.2
    (r.1 :: rr.1, rr.2)

/-- Several packaging runs executed inside one process: the module level
ISO_NUMBERING dict is threaded from each run into the next, exactly as the
global of scripts/pack.py persists between calls. -/
def processRuns : List (List String) → ComplianceMap → List (List String)
  | [], _ => []
  | r :: rest, m =>
    let p := packageRun r m
    p.1 :: processRuns rest p.2

/-- Value of ISO_NUMBERING at module load (scripts/pack.py line 10). -/
def ISO_NUMBERING_init : ComplianceMap := []

/-- Decimal digit test on characters. -/
def isDigitCh (c : Char) : Bool :=
  decide ('0' ≤ c) && decide (c ≤ '9')

/-- Value of the leading run of decimal digits of a character list,
pushed onto an accumulator; reading stops at the first non-digit. -/
def digitPfxVal : List Char → Nat → Nat
  | [], acc => acc
  | c :: rest, acc =>
    if isDigitCh c then digitPfxVal rest (acc * 10 + (c.toNat - 48)) else acc

/-- Push a digit string onto a decimal accumulator. -/
def pushVal (acc : Nat) (l : List Char) : Nat :=
  l.foldl (fun a c => a * 10 + (c.toNat - 48)) acc

/-- Filesystem view seen by Bootloader.test_or_copy: the target's
modification time when the target exists, and the source's modification
time.  Times are modelled as naturals. -/
structure FsState where
  targetMtime : Option Nat
  sourceMtime : Nat
deriving DecidableEq

/-- Bootloader.test_or_copy from scripts/bootloader/bootloader.py lines
22-25: copy the source over the target when the target is missing or the
source's modification time is strictly greater; shutil.copyfile stamps the
copied target with the current time.  Returns the new state and whether a
copy happened. -/
def test_or_copy (now : Nat) (s : FsState) : FsState × Bool :=
  match s.targetMtime with
  | none => ({ s with targetMtime := some now }, true)
  | some t =>
    if s.sourceMtime > t then ({ s with targetMtime := some now }, true)
    else (s, false)

/-- A task class as the TaskRegistry sees it: an identity for the class
plus whether it derives from Task. -/
structure TaskType where
  tyId : Nat
  derivesTask : Bool
deriving DecidableEq

/-- A task instance produced by TaskRegistry.create_task, recording the
class it was instantiated from. -/
structure TaskInstance where
  ofType : Nat
deriving DecidableEq

/-- The tasks dict of the TaskRegistry singleton. -/
abbrev TaskMap := List (String × TaskType)

/-- Failure modes of the registries: duplicate name on register, product
not deriving the capability class, unknown name on create or get. -/
inductive RegError where
  | alreadyRegistered
  | notDerived
  | notFound
deriving DecidableEq

/-- Dict lookup in a task registry. -/
def taskFind : TaskMap → String → Option TaskType
  | [], _ => none
  | (k, v) :: rest, key => if k = key then some v else taskFind rest key

/-- TaskRegistry.register from scripts/task.py lines 34-41: reject a name
that is already bound, then reject a class that does not derive from Task,
otherwise bind the name.  The returned map is the state of the tasks dict
after the call; a failure raises before any mutation, leaving it
unchanged. -/
def taskRegister (tasks : TaskMap) (name : String) (task : TaskType) :
    TaskMap × Option RegError :=
  if (taskFind tasks name).isSome then (tasks, some RegError.alreadyRegistered)
  else if task.derivesTask = false then (tasks, some RegError.notDerived)
  else (tasks ++ [(name, task)], none)

/-- TaskRegistry.create_task from scripts/task.py lines 53-57: fail on an
unknown name, otherwise instantiate the registered class. -/
def create_task (tasks : TaskMap) (name : String) : Except RegError TaskInstance :=
  match taskFind tasks name with
  | none => Except.error RegError.notFound
  | some t => Except.ok { ofType := t.tyId }

/-- A bootloader object as the BootloaderRegistry sees it: an identity for
the object plus whether it is an instance of Bootloader. -/
structure BootObj where
  objId : Nat
  isBootloader : Bool
deriving DecidableEq

/-- The bootloaders dict of the BootloaderRegistry singleton. -/
abbrev BootMap := List (String × BootObj)

/-- Dict lookup in a bootloader registry. -/
def bootFind : BootMap → String → Option BootObj
  | [], _ => none
  | (k, v) :: rest, key => if k = key then some v else bootFind rest key

/-- BootloaderRegistry.register from scripts/bootloader/bootloader.py
lines 37-44: reject a name that is already bound, then reject an object
that is not a Bootloader instance, otherwise bind the name. -/
def bootRegister (loaders : BootMap) (name : String) (loader : BootObj) :
    BootMap × Option RegError :=
  if (bootFind loaders name).isSome then (loaders, some RegError.alreadyRegistered)
  else if loader.isBootloader = false then (loaders, some RegError.notDerived)
  else (loaders ++ [(name, loader)], none)

/-- BootloaderRegistry.get_bootloader from scripts/bootloader/bootloader.py
lines 46-50: fail on an unknown name, otherwise return the stored
instance. -/
def get_bootloader (loaders : BootMap) (name : String) : Except RegError BootObj :=
  match bootFind loaders name with
  | none => Except.error RegError.notFound
  | some b => Except.ok b

/-- An El Torito boot catalog entry as LimineBootloader.make_bootable
registers it through pycdlib's add_eltorito: the iso path of the boot
file, the media name, the boot load size in sectors, the boot info table
flag and the efi flag (pycdlib defaults efi to false when omitted). -/
structure EltoritoEntry where
  bootFile : String
  mediaName : String
  bootLoadSize : Nat
  bootInfoTable : Bool
  efi : Bool
deriving DecidableEq

/-- The slice of a pycdlib image that make_bootable touches: the Rock
Ridge path to file identifier mapping queried through get_record, and the
boot catalog built through add_eltorito. -/
structure IsoImage where
  rrRecords : List (String × String)
  eltorito : List EltoritoEntry
deriving DecidableEq

/-- Lookup of a record by Rock Ridge path, as pycdlib's get_record does;
a missing record raises. -/
def getRecord : List (String × String) → String → Option String
  | [], _ => none
  | (k, v) :: rest, key => if k = key then some v else getRecord rest key

/-- LimineBootloader.make_bootable from scripts/bootloader/limine.py lines
25-32: look up the staged BIOS loader record and register a no-emulation
BIOS entry with a boot info table and boot load size four, then look up
the staged UEFI loader record and register a no-emulation UEFI entry with
a boot info table, boot load size four and the efi flag; a missing record
raises, aborting before any later step, and the raised-through image is
discarded, which the error result models.  add_eltorito leaves the record
table untouched, so both lookups read the same records and the two
successful registrations append their entries in program order. -/
def make_bootable (iso : IsoImage) : Except String IsoImage :=
  match getRecord iso.rrRecords "/limine/limine-bios-cd.bin" with
  | none => Except.error "/limine/limine-bios-cd.bin"
  | some ident =>
    match getRecord iso.rrRecords "/limine/limine-uefi-cd.bin" with
    | none => Except.error "/limine/limine-uefi-cd.bin"
    | some ident2 =>
      Except.ok
        { iso with
          eltorito := iso.eltorito ++
            [{ bootFile := "/LIMINE/" ++ ident, mediaName := "noemul",
               bootLoadSize := 4, bootInfoTable := true, efi := false },
             { bootFile := "/LIMINE/" ++ ident2, mediaName := "noemul",
               bootLoadSize := 4, bootInfoTable := true, efi := true }] }

/-- Staging tree under disk/: named subdirectories with their own trees,
plus the plain files of the directory. -/
inductive DirTree where
  | node (dirs : List (String × DirTree)) (files : List String)

mutual

/-- os.walk in top-down order: the directory itself is yielded as a
(root, directory names, file names) triple before its subdirectories are
walked, in list order. -/
def walk (path : String) : DirTree → List (String × List String × List String)
  | DirTree.node dirs files =>
    (path, dirs.map Prod.fst, files) :: walkChildren path dirs

/-- Walk of the named children of a directory, in order. -/
def walkChildren (path : String) :
    List (String × DirTree) → List (String × List String × List String)
  | [] => []
  | (n, t) :: rest => walk (path ++ "/" ++ n) t ++ walkChildren path rest

end

/-- Observable actions of PackagingTask._package_disk_dir on the image,
in program order. -/
inductive PackEvent where
  | isoNew
  | addDirectory (isoPath : String) (rrName : String)
  | addFile (isoPath : String) (rrName : String)
  | makeBootableStep
  | writeFp
  | closeIso
deriving DecidableEq

/-- Split of a walked root at slashes, as Python str.split('/') performs
it; the empty string splits into one empty piece. -/
def splitSlash : List Char → List (List Char)
  | [] => [[]]
  | c :: rest =>
    let r := splitSlash rest
    if c = '/' then [] :: r
    else
      match r with
      | [] => [[c]]
      | h :: t => (c :: h) :: t

/-- iso_disk_root of a walked root (scripts/pack.py lines 74-81): strip
the four character disk marker from the front, then uppercase each slash
separated piece and rejoin with slashes. -/
def isoRootOf (root : String) : String :=
  String.mk
    (List.intercalate ['/']
      ((splitSlash (root.data.drop 4)).map (fun s => s.map Char.toUpper)))

/-- Directory additions of one walk step (scripts/pack.py lines 83-85):
each directory is added under its uppercased name, with the original name
as Rock Ridge name. -/
def dirEvents (isoRoot : String) (dirs : List String) : List PackEvent :=
  dirs.map (fun d =>
    PackEvent.addDirectory (isoRoot ++ "/" ++ String.mk (d.data.map Char.toUpper)) d)

/-- File additions of one walk step (scripts/pack.py lines 87-90): each
file is added under its compliant name with version suffix, with the
original name as Rock Ridge name; the numbering dict threads through. -/
def fileEvents (isoRoot : String) :
    ComplianceMap → List String → List PackEvent × ComplianceMap
  | m, [] => ([], m)
  | m, f :: rest =>
    let r := makeIsoCompliant f m
    let rr := fileEvents isoRoot r.2 rest
    (PackEvent.addFile (isoRoot ++ "/" ++ r.1 ++ ";1") f :: rr.1, rr.2)

/-- Image actions of the walk loop of _package_disk_dir: for every walked
triple, the directory additions followed by the file additions. -/
def walkEvents :
    ComplianceMap → List (String × List String × List String) →
      List PackEvent × ComplianceMap
  | m, [] => ([], m)
  | m, (root, dirs, files) :: rest =>
    let ir := isoRootOf root
    let fe := fileEvents ir m files
    let re := walkEvents fe.2 rest
    (dirEvents ir dirs ++ fe.1 ++ re.1, re.2)

/-- Action trace of PackagingTask._package_disk_dir (scripts/pack.py lines
69-95) over an already-walked staging tree: create the image, run the walk
loop, register the boot entries, serialize, close. -/
def packageDiskDir (walked : List (String × List String × List String))
    (m0 : ComplianceMap) : List PackEvent :=
  PackEvent.isoNew ::
    (walkEvents m0 walked).1 ++
      [PackEvent.makeBootableStep, PackEvent.writeFp, PackEvent.closeIso]

/-- Action trace of a packaging run over a staging tree rooted at disk. -/
def packageEvents (tree : DirTree) (m0 : ComplianceMap) : List PackEvent :=
  packageDiskDir (walk "disk" tree) m0

/-- Fail-fast execution of an action trace: actions run in order until the
first one fails; the failing action is the last one attempted, and the
flag records whether the whole trace succeeded.  This models Python
exception propagation through _package_disk_dir. -/
def execute (ok : PackEvent → Bool) : List PackEvent → List PackEvent × Bool
  | [] => ([], true)
  | e :: rest =>
    if ok e then
      let r := execute ok rest
      (e :: r.1, r.2)
    else ([e], false)

/-- Directory addition test on actions. -/
def isAddDir : PackEvent → Bool
  | PackEvent.addDirectory _ _ => true
  | _ => false

/-- File addition test on actions. -/
def isAddFile : PackEvent → Bool
  | PackEvent.addFile _ _ => true
  | _ => false

/-- Addition test on actions. -/
def isAdd (e : PackEvent) : Bool :=
  isAddDir e || isAddFile e

theorem natDigitsAux_fuel (f1 : Nat) :
    ∀ f2 n, n ≤ f1 → n ≤ f2 → natDigitsAux f1 n = natDigitsAux f2 n := by
  induction f1 with
  | zero =>
    intro f2 n h1 _
    interval_cases n
    cases f2 <;> simp [natDigitsAux]
  | succ f1 ih =>
    intro f2 n h1 h2
    by_cases hn : n < 10
    · cases f2 with
      | zero =>
        interval_cases n
        simp [natDigitsAux]
      | succ f2 => simp [natDigitsAux, hn]
    · cases f2 with
      | zero => omega
      | succ f2 =>
        simp only [natDigitsAux, if_neg hn]
        have hd : n / 10 ≤ f1 := by omega
        have hd2 : n / 10 ≤ f2 := by omega
        rw [ih f2 (n / 10) hd hd2]

theorem natDigits_eq (n : Nat) :
    natDigits n =
      if n < 10 then [digitChar n]
      else natDigits (n / 10) ++ [digitChar (n % 10)] := by
  by_cases hn : n < 10
  · rw [if_pos hn]
    cases n with
    | zero => rfl
    | succ m =>
      show natDigitsAux (m + 1) (m + 1) = _
      unfold natDigitsAux
      rw [if_pos hn]
  · rw [if_neg hn]
    cases n with
    | zero => omega
    | succ m =>
      show natDigitsAux (m + 1) (m + 1) = _
      unfold natDigitsAux
      rw [if_neg hn]
      unfold natDigits
      rw [natDigitsAux_fuel m ((m + 1) / 10) ((m + 1) / 10) (by omega) (by omega)]

theorem digitChar_isDigit (d : Nat) : isDigitCh (digitChar d) = true := by
  rcases d with _|_|_|_|_|_|_|_|_|_ <;> rfl

theorem digitVal_digitChar (d : Nat) (h : d < 10) : (digitChar d).toNat - 48 = d := by
  interval_cases d <;> rfl

theorem natDigits_all_digits (n : Nat) :
    ∀ c ∈ natDigits n, isDigitCh c = true := by
  induction n using Nat.strong_induction_on with
  | _ n ih =>
    intro c hc
    rw [natDigits_eq] at hc
    by_cases hn : n < 10
    · rw [if_pos hn] at hc
      simp at hc
      subst hc
      exact digitChar_isDigit n
    · rw [if_neg hn] at hc
      rcases List.mem_append.1 hc with h | h
      · exact ih (n / 10) (by omega) c h
      · simp at h
        subst h
        exact digitChar_isDigit (n % 10)

theorem pushVal_natDigits (n : Nat) : pushVal 0 (natDigits n) = n := by
  induction n using Nat.strong_induction_on with
  | _ n ih =>
    rw [natDigits_eq]
    by_cases hn : n < 10
    · rw [if_pos hn]
      simp [pushVal, digitVal_digitChar n hn]
    · rw [if_neg hn]
      unfold pushVal
      rw [List.foldl_append]
      have := ih (n / 10) (by omega)
      unfold pushVal at this
      rw [this]
      simp [digitVal_digitChar (n % 10) (by omega)]
      omega

theorem pad2_all_digits (n : Nat) : ∀ c ∈ pad2 n, isDigitCh c = true := by
  intro c hc
  unfold pad2 at hc
  by_cases h : (natDigits n).length < 2
  · rw [if_pos h] at hc
    rcases List.mem_cons.1 hc with rfl | hc
    · rfl
    · exact natDigits_all_digits n c hc
  · rw [if_neg h] at hc
    exact natDigits_all_digits n c hc

theorem pushVal_pad2 (n : Nat) : pushVal 0 (pad2 n) = n := by
  unfold pad2
  by_cases h : (natDigits n).length < 2
  · rw [if_pos h]
    show pushVal (0 * 10 + ('0'.toNat - 48)) (natDigits n) = n
    have : (0 * 10 + ('0'.toNat - 48)) = 0 := by rfl
    rw [this, pushVal_natDigits]
  · rw [if_neg h]
    exact pushVal_natDigits n

theorem digitPfxVal_append_digits (d : List Char) :
    ∀ e acc, (∀ c ∈ d, isDigitCh c = true) →
      digitPfxVal (d ++ e) acc = digitPfxVal e (pushVal acc d) := by
  induction d with
  | nil => intro e acc _; rfl
  | cons c rest ih =>
    intro e acc h
    have hc : isDigitCh c = true := h c (by simp)
    have h1 : digitPfxVal ((c :: rest) ++ e) acc
        = digitPfxVal (rest ++ e) (acc * 10 + (c.toNat - 48)) := by
      have h2 : digitPfxVal (c :: (rest ++ e)) acc
          = if isDigitCh c = true then
              digitPfxVal (rest ++ e) (acc * 10 + (c.toNat - 48))
            else acc := rfl
      rw [List.cons_append, h2, if_pos hc]
    rw [h1, ih e (acc * 10 + (c.toNat - 48)) (fun x hx => h x (List.mem_cons_of_mem c hx))]
    rw [show pushVal acc (c :: rest) = pushVal (acc * 10 + (c.toNat - 48)) rest from rfl]

theorem digitPfxVal_pad2 (n : Nat) (e : List Char)
    (he : e = [] ∨ ∃ t, e = '.' :: t) :
    digitPfxVal (pad2 n ++ e) 0 = n := by
  rw [digitPfxVal_append_digits (pad2 n) e 0 (pad2_all_digits n), pushVal_pad2]
  rcases he with rfl | ⟨t, rfl⟩
  · rfl
  · unfold digitPfxVal
    rw [if_neg (by decide)]

theorem mapFind_set_self (m : ComplianceMap) (k : String) (v : Nat) :
    mapFind (mapSet m k v) k = some v := by
  induction m with
  | nil => simp [mapSet, mapFind]
  | cons kv rest ih =>
    obtain ⟨k', v'⟩ := kv
    by_cases h : k' = k
    · simp [mapSet, h, mapFind]
    · simp [mapSet, h, mapFind, ih]

theorem mapFind_set_ne (m : ComplianceMap) (k k' : String) (v : Nat)
    (h : k' ≠ k) : mapFind (mapSet m k v) k' = mapFind m k' := by
  induction m with
  | nil =>
    show (if k = k' then some v else mapFind [] k') = none
    rw [if_neg (fun hh => h hh.symm)]
    rfl
  | cons kv rest ih =>
    obtain ⟨k0, v0⟩ := kv
    by_cases h0 : k0 = k
    · subst h0
      show mapFind (if k0 = k0 then (k0, v) :: rest else (k0, v0) :: mapSet rest k0 v) k'
          = mapFind ((k0, v0) :: rest) k'
      rw [if_pos rfl]
      show (if k0 = k' then some v else mapFind rest k')
          = if k0 = k' then some v0 else mapFind rest k'
      rw [if_neg (fun hh => h hh.symm), if_neg (fun hh => h hh.symm)]
    · show mapFind (if k0 = k then (k, v) :: rest else (k0, v0) :: mapSet rest k v) k'
          = mapFind ((k0, v0) :: rest) k'
      rw [if_neg h0]
      show (if k0 = k' then some v0 else mapFind (mapSet rest k v) k')
          = if k0 = k' then some v0 else mapFind rest k'
      rw [ih]

theorem splitOnLastDot_cons (c : Char) (rest : List Char) :
    splitOnLastDot (c :: rest) =
      if (splitOnLastDot rest).2.isEmpty then
        if c = '.' then ([], '.' :: rest) else (c :: rest, [])
      else (c :: (splitOnLastDot rest).1, (splitOnLastDot rest).2) := rfl

theorem splitOnLastDot_append (l : List Char) :
    (splitOnLastDot l).1 ++ (splitOnLastDot l).2 = l := by
  induction l with
  | nil => rfl
  | cons c rest ih =>
    rw [splitOnLastDot_cons]
    by_cases he : (splitOnLastDot rest).2.isEmpty = true
    · rw [if_pos he]
      by_cases hc : c = '.'
      · subst hc
        rw [if_pos rfl]
        rfl
      · rw [if_neg hc]
        simp
    · rw [if_neg he]
      show c :: (splitOnLastDot rest).1 ++ (splitOnLastDot rest).2 = c :: rest
      rw [List.cons_append, ih]

theorem splitOnLastDot_ext (l : List Char) :
    (splitOnLastDot l).2 = [] ∨ ∃ t, (splitOnLastDot l).2 = '.' :: t := by
  induction l with
  | nil => left; rfl
  | cons c rest ih =>
    rw [splitOnLastDot_cons]
    by_cases he : (splitOnLastDot rest).2.isEmpty = true
    · rw [if_pos he]
      by_cases hc : c = '.'
      · rw [if_pos hc]
        right
        exact ⟨rest, rfl⟩
      · rw [if_neg hc]
        left
        rfl
    · rw [if_neg he]
      rcases ih with h | ⟨t, h⟩
      · rw [List.isEmpty_iff] at he
        exact absurd h he
      · right
        exact ⟨t, h⟩

theorem splitextList_def (l : List Char) :
    splitextList l =
      if ((splitOnLastDot l).2.isEmpty || (splitOnLastDot l).1.all (· == '.')) then
        (l, [])
      else splitOnLastDot l := rfl

theorem splitextList_append (l : List Char) :
    (splitextList l).1 ++ (splitextList l).2 = l := by
  rw [splitextList_def]
  by_cases h : ((splitOnLastDot l).2.isEmpty || (splitOnLastDot l).1.all (· == '.')) = true
  · rw [if_pos h]
    simp
  · rw [if_neg h]
    exact splitOnLastDot_append l

theorem splitextList_ext (l : List Char) :
    (splitextList l).2 = [] ∨ ∃ t, (splitextList l).2 = '.' :: t := by
  rw [splitextList_def]
  by_cases h : ((splitOnLastDot l).2.isEmpty || (splitOnLastDot l).1.all (· == '.')) = true
  · rw [if_pos h]
    left
    rfl
  · rw [if_neg h]
    exact splitOnLastDot_ext l

theorem upperExt_shape (file : String) :
    upperExt file = [] ∨ ∃ t, upperExt file = '.' :: t := by
  unfold upperExt
  rcases splitextList_ext file.data with h | ⟨t, h⟩
  · left
    rw [h]
    rfl
  · right
    exact ⟨t.map Char.toUpper, by rw [h]; rfl⟩

theorem fixExt_shape (e : List Char) (he : e = [] ∨ ∃ t, e = '.' :: t) :
    fixExt e = [] ∨ ∃ t, fixExt e = '.' :: t := by
  unfold fixExt
  by_cases h : 4 < e.length ∨ ((e.drop 1).any (fun c => decide (c ∉ VALID_ISO_CHARS))) = true
  · rw [if_pos h]
    right
    exact ⟨[], rfl⟩
  · rw [if_neg h]
    exact he

theorem makeIsoCompliant_def (file : String) (m : ComplianceMap) :
    makeIsoCompliant file m =
      if 8 < (sanBase file).length ∨ sanBase file ≠ upperBase file then
        match mapFind m (pfxOf file) with
        | some number =>
          (String.mk ((sanBase file).take 6 ++ pad2 number ++ fixExt (upperExt file)),
            mapSet m (pfxOf file) (number + 1))
        | none =>
          (String.mk ((sanBase file).take 6 ++ pad2 1 ++ fixExt (upperExt file)),
            mapSet m (pfxOf file) 2)
      else (String.mk (sanBase file ++ fixExt (upperExt file)), m) := rfl

theorem makeIso_nc (file : String) (m : ComplianceMap) (h : nonCompliant file) :
    makeIsoCompliant file m =
      (String.mk ((sanBase file).take 6 ++ pad2 (seqOf m (pfxOf file)) ++
          fixExt (upperExt file)),
        mapSet m (pfxOf file) (seqOf m (pfxOf file) + 1)) := by
  unfold nonCompliant at h
  rw [makeIsoCompliant_def, if_pos h]
  cases hm : mapFind m (pfxOf file) with
  | none => simp [seqOf, hm]
  | some k => simp [seqOf, hm]

theorem makeIso_c (file : String) (m : ComplianceMap) (h : ¬ nonCompliant file) :
    makeIsoCompliant file m = (String.mk (sanBase file ++ fixExt (upperExt file)), m) := by
  unfold nonCompliant at h
  rw [makeIsoCompliant_def, if_neg h]

theorem seqOf_isoStep_le (m : ComplianceMap) (f : String) (p : String) :
    seqOf m p ≤ seqOf (isoStep m f) p := by
  unfold isoStep
  by_cases h : nonCompliant f
  · rw [makeIso_nc f m h]
    by_cases hp : p = pfxOf f
    · subst hp
      show seqOf m (pfxOf f) ≤
        seqOf (mapSet m (pfxOf f) (seqOf m (pfxOf f) + 1)) (pfxOf f)
      unfold seqOf
      rw [mapFind_set_self]
      exact Nat.le_succ _
    · show seqOf m p ≤ seqOf (mapSet m (pfxOf f) (seqOf m (pfxOf f) + 1)) p
      unfold seqOf
      rw [mapFind_set_ne m (pfxOf f) p _ hp]
  · rw [makeIso_c f m h]

theorem seqOf_runMapFrom_le (files : List String) :
    ∀ m p, seqOf m p ≤ seqOf (runMapFrom m files) p := by
  induction files with
  | nil => intro m p; exact le_refl _
  | cons f rest ih =>
    intro m p
    have h1 : runMapFrom m (f :: rest) = runMapFrom (isoStep m f) rest := rfl
    rw [h1]
    exact le_trans (seqOf_isoStep_le m f p) (ih (isoStep m f) p)

theorem getD_of_lt (files : List String) (i : Nat) (h : i < files.length) :
    files.getD i "" = files[i] := by
  rw [List.getD_eq_getElem?_getD, List.getElem?_eq_getElem h]
  rfl

theorem mapBefore_succ (files : List String) (i : Nat) (h : i < files.length) :
    mapBefore files (i + 1) = isoStep (mapBefore files i) (files.getD i "") := by
  unfold mapBefore runMapFrom
  rw [List.take_succ, List.getElem?_eq_getElem h, List.foldl_append]
  rw [getD_of_lt files i h]
  rfl

theorem mapBefore_mono (files : List String) (i j : Nat) (hij : i ≤ j) (p : String) :
    seqOf (mapBefore files i) p ≤ seqOf (mapBefore files j) p := by
  have hsplit : files.take j = files.take i ++ (files.take j).drop i := by
    conv_lhs => rw [← List.take_append_drop i (files.take j)]
    rw [List.take_take, Nat.min_eq_left hij]
  unfold mapBefore runMapFrom
  rw [hsplit, List.foldl_append]
  exact seqOf_runMapFrom_le _ _ _

theorem sanitizeChar_ne_dot (c : Char) : sanitizeChar c ≠ '.' := by
  unfold sanitizeChar
  by_cases h : c ∈ VALID_ISO_CHARS
  · rw [if_pos h]
    intro hc
    subst hc
    revert h
    decide
  · rw [if_neg h]
    decide

theorem sanBase_no_dot (file : String) : '.' ∉ sanBase file := by
  unfold sanBase
  intro h
  rcases List.mem_map.1 h with ⟨c, _, hc⟩
  exact sanitizeChar_ne_dot c hc

theorem pad2_ne_dot (n : Nat) : '.' ∉ pad2 n := by
  intro h
  have hd := pad2_all_digits n '.' h
  exact absurd hd (by decide)

theorem execute_cons (ok : PackEvent → Bool) (e : PackEvent) (rest : List PackEvent) :
    execute ok (e :: rest) =
      if ok e then (e :: (execute ok rest).1, (execute ok rest).2)
      else ([e], false) := rfl

theorem execute_fail (ok : PackEvent → Bool) (evs : List PackEvent)
    (h : (execute ok evs).2 = false) :
    ∃ pre e post, evs = pre ++ e :: post ∧ (execute ok evs).1 = pre ++ [e] ∧
      ok e = false ∧ ∀ x ∈ pre, ok x = true := by
  induction evs with
  | nil => exact absurd h (by simp [execute])
  | cons e rest ih =>
    rw [execute_cons] at h
    by_cases he : ok e = true
    · rw [if_pos he] at h
      have h2 : (execute ok rest).2 = false := h
      obtain ⟨pre, x, post, h3, h4, h5, h6⟩ := ih h2
      refine ⟨e :: pre, x, post, by rw [h3]; rfl, ?_, h5, ?_⟩
      · rw [execute_cons, if_pos he]
        show e :: (execute ok rest).1 = (e :: pre) ++ [x]
        rw [h4]
        rfl
      · intro y hy
        rcases List.mem_cons.1 hy with rfl | hy
        · exact he
        · exact h6 y hy
    · have he' : ok e = false := by
        cases hok : ok e
        · rfl
        · exact absurd hok he
      refine ⟨[], e, rest, rfl, ?_, he', by simp⟩
      rw [execute_cons, if_neg he]
      rfl

theorem dirEvents_all (isoRoot : String) (dirs : List String) :
    ∀ e ∈ dirEvents isoRoot dirs, isAddDir e = true := by
  intro e he
  rcases List.mem_map.1 he with ⟨d, _, hd⟩
  rw [← hd]
  rfl

theorem fileEvents_all (isoRoot : String) (fs : List String) :
    ∀ m, ∀ e ∈ (fileEvents isoRoot m fs).1, isAddFile e = true := by
  induction fs with
  | nil =>
    intro m e he
    exact absurd he (List.not_mem_nil e)
  | cons f rest ih =>
    intro m e he
    have hred : (fileEvents isoRoot m (f :: rest)).1 =
        PackEvent.addFile (isoRoot ++ "/" ++ (makeIsoCompliant f m).1 ++ ";1") f ::
          (fileEvents isoRoot (makeIsoCompliant f m).2 rest).1 := rfl
    rw [hred] at he
    rcases List.mem_cons.1 he with rfl | h
    · rfl
    · exact ih _ e h

theorem walkEvents_all (w : List (String × List String × List String)) :
    ∀ m, ∀ e ∈ (walkEvents m w).1, isAdd e = true := by
  induction w with
  | nil =>
    intro m e he
    exact absurd he (List.not_mem_nil e)
  | cons entry rest ih =>
    obtain ⟨root, dirs, files⟩ := entry
    intro m e he
    have hred : (walkEvents m ((root, dirs, files) :: rest)).1 =
        dirEvents (isoRootOf root) dirs ++
          (fileEvents (isoRootOf root) m files).1 ++
            (walkEvents (fileEvents (isoRootOf root) m files).2 rest).1 := rfl
    rw [hred] at he
    rcases List.mem_append.1 he with h | h
    · rcases List.mem_append.1 h with h1 | h1
      · unfold isAdd
        rw [dirEvents_all (isoRootOf root) dirs e h1]
        rfl
      · unfold isAdd
        rw [fileEvents_all (isoRootOf root) files m e h1]
        simp
    · exact ih _ e h

theorem walkEvents_no_write (w : List (String × List String × List String))
    (m : ComplianceMap) : PackEvent.writeFp ∉ (walkEvents m w).1 := by
  intro h
  have ha := walkEvents_all w m _ h
  exact absurd ha (by decide)

theorem test_or_copy_none (now src : Nat) :
    test_or_copy now ⟨none, src⟩ = (⟨some now, src⟩, true) := rfl

theorem test_or_copy_some (now t src : Nat) :
    test_or_copy now ⟨some t, src⟩ =
      if src > t then (⟨some now, src⟩, true) else (⟨some t, src⟩, false) := rfl

/-- Claim C1, amended: on a fresh numbering dict, make_iso_compliant maps
"longfilename.bin" to "LONGFI01.BIN" (not "LONGFIL01.BIN"): the sanitised
uppercased base "LONGFILENAME" has twelve characters (not thirteen), is
longer than eight, is truncated to the six character prefix "LONGFI", and
the first use of that prefix yields sequence number 01, advancing the
counter to 2. -/
theorem claim_C1_theorem :
    makeIsoCompliant "longfilename.bin" ISO_NUMBERING_init =
      ("LONGFI01.BIN", [("LONGFI", 2)]) ∧
    (sanBase "longfilename.bin").length = 12 ∧
    (sanBase "longfilename.bin").take 6 = "LONGFI".data := by
  refine ⟨?_, ?_, ?_⟩ <;> decide

/-- Claim C1, counterexample: the claimed output "LONGFIL01.BIN" is not
what make_iso_compliant produces for "longfilename.bin" on a fresh
numbering dict; the produced name is "LONGFI01.BIN". -/
theorem claim_C1_counterexample :
    (makeIsoCompliant "longfilename.bin" ISO_NUMBERING_init).1 = "LONGFI01.BIN" ∧
    (makeIsoCompliant "longfilename.bin" ISO_NUMBERING_init).1 ≠ "LONGFIL01.BIN" := by
  refine ⟨?_, ?_⟩ <;> decide

/-- Claim C2, counterexample: "kernel.elf" has a literal original base that
uppercasing changes, yet make_iso_compliant does not treat it as
non-compliant: it returns "KERNEL.ELF" (not "KERNEL01.ELF") and leaves the
numbering dict untouched, because the code compares the sanitised base
against the already uppercased base, not against the literal original. -/
theorem claim_C2_counterexample :
    (makeIsoCompliant "kernel.elf" ISO_NUMBERING_init).1 = "KERNEL.ELF" ∧
    (makeIsoCompliant "kernel.elf" ISO_NUMBERING_init).1 ≠ "KERNEL01.ELF" ∧
    (makeIsoCompliant "kernel.elf" ISO_NUMBERING_init).2 = ISO_NUMBERING_init := by
  refine ⟨?_, ?_, ?_⟩ <;> decide

/-- Claim C2, amended: whenever sanitisation replaces at least one
character relative to the UPPERCASED base (case changes alone do not
count), make_iso_compliant treats the name as non-compliant even when the
sanitised base is eight characters or shorter: the returned base is the
first six characters of the sanitised base followed by the two digit
zero-padded sequence number for that prefix, and the counter advances. -/
theorem claim_C2_theorem (file : String) (m : ComplianceMap)
    (h : sanBase file ≠ upperBase file) :
    (makeIsoCompliant file m).1 =
      String.mk ((sanBase file).take 6 ++ pad2 (seqOf m (pfxOf file)) ++
        fixExt (upperExt file)) ∧
    (makeIsoCompliant file m).2 = mapSet m (pfxOf file) (seqOf m (pfxOf file) + 1) := by
  have hnc : nonCompliant file := Or.inr h
  rw [makeIso_nc file m hnc]
  exact ⟨rfl, rfl⟩

/-- Claim C2, witness: "a-b.txt" has a sanitised base "A_B" differing from
its uppercased base "A-B" and only three characters long; it is numbered
anyway, yielding "A_B01.TXT". -/
theorem claim_C2_witness :
    sanBase "a-b.txt" ≠ upperBase "a-b.txt" ∧
    (sanBase "a-b.txt").length ≤ 8 ∧
    (makeIsoCompliant "a-b.txt" ISO_NUMBERING_init).1 = "A_B01.TXT" ∧
    (makeIsoCompliant "a-b.txt" ISO_NUMBERING_init).2 = [("A_B", 2)] := by
  have h : sanBase "a-b.txt" ≠ upperBase "a-b.txt" := by decide
  have ht := claim_C2_theorem ("a-b.txt") ISO_NUMBERING_init h
  refine ⟨h, by decide, ?_, ?_⟩
  · rw [ht.1]
    decide
  · rw [ht.2]
    decide

/-- Claim C4: test_or_copy copies exactly when the target is missing or the
source's modification time is strictly greater; a target at least as new as
the source is left alone and the call returns the state unchanged; and an
immediate second invocation on unchanged inputs never copies and leaves the
state unchanged, provided the source is not stamped in the future of the
first call. -/
theorem claim_C4_theorem (now now2 : Nat) (s : FsState)
    (hsrc : s.sourceMtime ≤ now) :
    ((test_or_copy now s).2 = true ↔
      s.targetMtime = none ∨ ∃ t, s.targetMtime = some t ∧ t < s.sourceMtime) ∧
    (∀ t, s.targetMtime = some t → s.sourceMtime ≤ t →
      test_or_copy now s = (s, false)) ∧
    (test_or_copy now2 (test_or_copy now s).1).2 = false ∧
    (test_or_copy now2 (test_or_copy now s).1).1 = (test_or_copy now s).1 := by
  obtain ⟨tm, src⟩ := s
  simp only [] at hsrc
  cases tm with
  | none =>
    rw [test_or_copy_none]
    refine ⟨by simp, ?_, ?_, ?_⟩
    · intro t ht
      exact absurd ht (by simp)
    · show (test_or_copy now2 ⟨some now, src⟩).2 = false
      rw [test_or_copy_some, if_neg (by omega)]
    · show (test_or_copy now2 ⟨some now, src⟩).1 = ⟨some now, src⟩
      rw [test_or_copy_some, if_neg (by omega)]
  | some t =>
    rw [test_or_copy_some]
    by_cases hc : src > t
    · rw [if_pos hc]
      refine ⟨?_, ?_, ?_, ?_⟩
      · constructor
        · intro _
          exact Or.inr ⟨t, rfl, hc⟩
        · intro _
          rfl
      · intro t' ht' hle
        have ht2 : t = t' := by simpa using ht'
        have hle' : src ≤ t' := hle
        omega
      · show (test_or_copy now2 ⟨some now, src⟩).2 = false
        rw [test_or_copy_some, if_neg (by omega)]
      · show (test_or_copy now2 ⟨some now, src⟩).1 = ⟨some now, src⟩
        rw [test_or_copy_some, if_neg (by omega)]
    · rw [if_neg hc]
      refine ⟨?_, ?_, ?_, ?_⟩
      · constructor
        · intro hcontra
          exact absurd hcontra (by simp)
        · rintro (hn | ⟨t', ht', hlt⟩)
          · exact absurd hn (by simp)
          · have ht2 : t = t' := by simpa using ht'
            have hlt' : t' < src := hlt
            omega
      · intro t' ht' hle
        rfl
      · show (test_or_copy now2 ⟨some t, src⟩).2 = false
        rw [test_or_copy_some, if_neg hc]
      · show (test_or_copy now2 ⟨some t, src⟩).1 = ⟨some t, src⟩
        rw [test_or_copy_some, if_neg hc]

/-- Claim C4, witness: with source time 5, an absent target is copied at
time 10, and the immediate re-invocation at time 11 does not copy; a target
at time 7 newer than the source is never copied. -/
theorem claim_C4_witness :
    (test_or_copy 10 ⟨none, 5⟩).2 = true ∧
    (test_or_copy 11 (test_or_copy 10 ⟨none, 5⟩).1).2 = false ∧
    test_or_copy 10 ⟨some 7, 5⟩ = (⟨some 7, 5⟩, false) := by
  refine ⟨?_, (claim_C4_theorem 10 11 ⟨none, 5⟩ (by decide)).2.2.1, ?_⟩
  · exact ((claim_C4_theorem 10 11 ⟨none, 5⟩ (by decide)).1).2 (Or.inl rfl)
  · exact (claim_C4_theorem 10 11 ⟨some 7, 5⟩ (by decide)).2.1 7 rfl (by decide)

/-- Claim C6, counterexample: ISO_NUMBERING is a module global that is
never reset, so numbering state of one packaging run leaks into the next
run of the same process: after a run that numbered "longfilenamea.bin" as
"LONGFI01.BIN", a second run maps "longfilenameb.bin" to "LONGFI02.BIN",
whereas a fresh dict would map it to "LONGFI01.BIN". -/
theorem claim_C6_counterexample :
    processRuns [["longfilenamea.bin"], ["longfilenameb.bin"]] ISO_NUMBERING_init =
      [["LONGFI01.BIN"], ["LONGFI02.BIN"]] ∧
    (packageRun ["longfilenameb.bin"] ISO_NUMBERING_init).1 = ["LONGFI01.BIN"] ∧
    processRuns [["longfilenamea.bin"], ["longfilenameb.bin"]] ISO_NUMBERING_init ≠
      [(packageRun ["longfilenamea.bin"] ISO_NUMBERING_init).1,
        (packageRun ["longfilenameb.bin"] ISO_NUMBERING_init).1] := by
  refine ⟨?_, ?_, ?_⟩ <;> decide

/-- Claim C6, amended: ISO_NUMBERING starts empty at module load, so only
the first packaging run of a process starts from a fresh dict; every later
run in the same process starts from the final dict of the previous run. -/
theorem claim_C6_theorem (r : List String) (rest : List (List String)) :
    processRuns [r] ISO_NUMBERING_init = [(packageRun r ISO_NUMBERING_init).1] ∧
    processRuns (r :: rest) ISO_NUMBERING_init =
      (packageRun r ISO_NUMBERING_init).1 ::
        processRuns rest (packageRun r ISO_NUMBERING_init).2 := by
  exact ⟨rfl, rfl⟩

theorem makeIso_base_no_dot (file : String) (m : ComplianceMap)
    (hfix : fixExt (upperExt file) = []) :
    '.' ∉ ((makeIsoCompliant file m).1).data := by
  by_cases h : nonCompliant file
  · rw [makeIso_nc file m h]
    intro hmem
    rcases List.mem_append.1 hmem with hm | hm
    · rcases List.mem_append.1 hm with hm1 | hm1
      · exact sanBase_no_dot file (List.mem_of_mem_take hm1)
      · exact pad2_ne_dot _ hm1
    · rw [hfix] at hm
      exact List.not_mem_nil '.' hm
  · rw [makeIso_c file m h]
    intro hmem
    rcases List.mem_append.1 hmem with hm | hm
    · exact sanBase_no_dot file hm
    · rw [hfix] at hm
      exact List.not_mem_nil '.' hm

/-- Claim C7, amended: when the uppercased extension is longer than four
characters (counting the dot) or has a character after the dot outside
the allowed charset, make_iso_compliant replaces it by a bare dot, so the
returned name ends in a trailing dot with no dot anywhere before it; but
an input with no extension at all keeps no extension, so its returned
name holds no dot rather than the BASE-dot form the claim requires of
every empty resulting extension. -/
theorem claim_C7_theorem (file : String) (m : ComplianceMap) :
    ((4 < (upperExt file).length ∨ ∃ c ∈ (upperExt file).drop 1, c ∉ VALID_ISO_CHARS) →
      ∃ b, ((makeIsoCompliant file m).1).data = b ++ ['.'] ∧ '.' ∉ b) ∧
    ((splitextList file.data).2 = [] → '.' ∉ ((makeIsoCompliant file m).1).data) := by
  constructor
  · intro hbad
    have hcond : 4 < (upperExt file).length ∨
        ((upperExt file).drop 1).any (fun c => decide (c ∉ VALID_ISO_CHARS)) = true := by
      rcases hbad with h | ⟨c, hc, hval⟩
      · exact Or.inl h
      · refine Or.inr ?_
        rw [List.any_eq_true]
        exact ⟨c, hc, by simpa using hval⟩
    have hfix : fixExt (upperExt file) = ['.'] := by
      unfold fixExt
      rw [if_pos hcond]
    by_cases h : nonCompliant file
    · rw [makeIso_nc file m h]
      refine ⟨(sanBase file).take 6 ++ pad2 (seqOf m (pfxOf file)), ?_, ?_⟩
      · rw [hfix]
      · intro hmem
        rcases List.mem_append.1 hmem with hm | hm
        · exact sanBase_no_dot file (List.mem_of_mem_take hm)
        · exact pad2_ne_dot _ hm
    · rw [makeIso_c file m h]
      refine ⟨sanBase file, ?_, sanBase_no_dot file⟩
      rw [hfix]
  · intro hext
    have hue : upperExt file = [] := by
      unfold upperExt
      rw [hext]
      rfl
    have hfix : fixExt (upperExt file) = [] := by
      rw [hue]
      rfl
    exact makeIso_base_no_dot file m hfix

/-- Claim C7, counterexample: the staged kernel artifact is the
extensionless filename "kernel"; its resulting extension is empty, yet
make_iso_compliant returns "KERNEL" with no trailing dot, not the
"KERNEL." form the claim demands whenever the resulting extension is
empty. -/
theorem claim_C7_counterexample :
    (makeIsoCompliant "kernel" ISO_NUMBERING_init).1 = "KERNEL" ∧
    (makeIsoCompliant "kernel" ISO_NUMBERING_init).1 ≠ "KERNEL." := by
  refine ⟨?_, ?_⟩ <;> decide

/-- Claim C7, witness: "app.config" has the uppercased extension ".CONFIG"
of length seven, so its name "APP." ends in a bare trailing dot; the
extensionless "kernel" yields "KERNEL" without any dot. -/
theorem claim_C7_witness :
    (∃ b, ((makeIsoCompliant "app.config" ISO_NUMBERING_init).1).data = b ++ ['.'] ∧
      '.' ∉ b) ∧
    '.' ∉ ((makeIsoCompliant "kernel" ISO_NUMBERING_init).1).data := by
  constructor
  · exact (claim_C7_theorem ("app.config") ISO_NUMBERING_init).1 (Or.inl (by decide))
  · exact (claim_C7_theorem ("kernel") ISO_NUMBERING_init).2 (by decide)

/-- Claim C8: registering a name that is already bound, or a product that
does not derive the required capability, fails and leaves the registry's
name-to-entry mapping unchanged; create or get on an absent name fails;
and a successful create instantiates and returns a fresh instance of the
registered class, while a successful get returns the stored bootloader
instance. -/
theorem claim_C8_theorem (tasks : TaskMap) (loaders : BootMap) (name : String)
    (task : TaskType) (loader : BootObj) :
    ((taskFind tasks name).isSome = true →
      taskRegister tasks name task = (tasks, some RegError.alreadyRegistered)) ∧
    (taskFind tasks name = none → task.derivesTask = false →
      taskRegister tasks name task = (tasks, some RegError.notDerived)) ∧
    (taskFind tasks name = none →
      create_task tasks name = Except.error RegError.notFound) ∧
    (∀ t, taskFind tasks name = some t →
      create_task tasks name = Except.ok { ofType := t.tyId }) ∧
    ((bootFind loaders name).isSome = true →
      bootRegister loaders name loader = (loaders, some RegError.alreadyRegistered)) ∧
    (bootFind loaders name = none → loader.isBootloader = false →
      bootRegister loaders name loader = (loaders, some RegError.notDerived)) ∧
    (bootFind loaders name = none →
      get_bootloader loaders name = Except.error RegError.notFound) ∧
    (∀ b, bootFind loaders name = some b →
      get_bootloader loaders name = Except.ok b) := by
  refine ⟨?_, ?_, ?_, ?_, ?_, ?_, ?_, ?_⟩
  · intro h
    unfold taskRegister
    rw [if_pos h]
  · intro h1 h2
    unfold taskRegister
    rw [if_neg (by rw [h1]; simp), if_pos h2]
  · intro h
    unfold create_task
    rw [h]
  · intro t h
    unfold create_task
    rw [h]
  · intro h
    unfold bootRegister
    rw [if_pos h]
  · intro h1 h2
    unfold bootRegister
    rw [if_neg (by rw [h1]; simp), if_pos h2]
  · intro h
    unfold get_bootloader
    rw [h]
  · intro b h
    unfold get_bootloader
    rw [h]

/-- Claim C8, witness: on a registry holding the build task class,
re-registering build fails, registering a non-Task class under pack fails,
create on run fails, create on build returns an instance of the build
class; the bootloader registry behaves alike and get returns the stored
Limine instance. -/
theorem claim_C8_witness :
    taskRegister [("build", ⟨1, true⟩)] "build" ⟨2, true⟩ =
      ([("build", ⟨1, true⟩)], some RegError.alreadyRegistered) ∧
    taskRegister [("build", ⟨1, true⟩)] "pack" ⟨2, false⟩ =
      ([("build", ⟨1, true⟩)], some RegError.notDerived) ∧
    create_task [("build", ⟨1, true⟩)] "run" = Except.error RegError.notFound ∧
    create_task [("build", ⟨1, true⟩)] "build" = Except.ok ⟨1⟩ ∧
    bootRegister [("Limine", ⟨1, true⟩)] "Limine" ⟨2, true⟩ =
      ([("Limine", ⟨1, true⟩)], some RegError.alreadyRegistered) ∧
    bootRegister [("Limine", ⟨1, true⟩)] "Rust" ⟨2, false⟩ =
      ([("Limine", ⟨1, true⟩)], some RegError.notDerived) ∧
    get_bootloader [("Limine", ⟨1, true⟩)] "Rust" = Except.error RegError.notFound ∧
    get_bootloader [("Limine", ⟨1, true⟩)] "Limine" = Except.ok ⟨1, true⟩ := by
  refine ⟨?_, ?_, ?_, ?_, ?_, ?_, ?_, ?_⟩
  · exact (claim_C8_theorem [("build", ⟨1, true⟩)] [] "build" ⟨2, true⟩ ⟨0, true⟩).1
      (by decide)
  · exact (claim_C8_theorem [("build", ⟨1, true⟩)] [] "pack" ⟨2, false⟩ ⟨0, true⟩).2.1
      (by decide) rfl
  · exact (claim_C8_theorem [("build", ⟨1, true⟩)] [] "run" ⟨2, true⟩ ⟨0, true⟩).2.2.1
      (by decide)
  · exact (claim_C8_theorem [("build", ⟨1, true⟩)] [] "build" ⟨2, true⟩ ⟨0, true⟩).2.2.2.1
      ⟨1, true⟩ (by decide)
  · exact (claim_C8_theorem [] [("Limine", ⟨1, true⟩)] "Limine" ⟨2, true⟩
      ⟨2, true⟩).2.2.2.2.1 (by decide)
  · exact (claim_C8_theorem [] [("Limine", ⟨1, true⟩)] "Rust" ⟨2, true⟩
      ⟨2, false⟩).2.2.2.2.2.1 (by decide) rfl
  · exact (claim_C8_theorem [] [("Limine", ⟨1, true⟩)] "Rust" ⟨2, true⟩
      ⟨2, true⟩).2.2.2.2.2.2.1 (by decide)
  · exact (claim_C8_theorem [] [("Limine", ⟨1, true⟩)] "Limine" ⟨2, true⟩
      ⟨2, true⟩).2.2.2.2.2.2.2 ⟨1, true⟩ (by decide)

/-- Claim C9: when both staged loader records are present in the image,
make_bootable succeeds and registers exactly two El Torito entries, the
BIOS one first: both reference the staged records through their file
identifiers, both carry no-emulation media and a boot load size of four
logical sectors, the BIOS entry has the boot info table enabled, and the
UEFI entry has the efi flag set. -/
theorem claim_C9_theorem (iso : IsoImage) (identB identU : String)
    (hB : getRecord iso.rrRecords "/limine/limine-bios-cd.bin" = some identB)
    (hU : getRecord iso.rrRecords "/limine/limine-uefi-cd.bin" = some identU) :
    make_bootable iso = Except.ok
      { iso with
        eltorito := iso.eltorito ++
          [{ bootFile := "/LIMINE/" ++ identB, mediaName := "noemul",
             bootLoadSize := 4, bootInfoTable := true, efi := false },
           { bootFile := "/LIMINE/" ++ identU, mediaName := "noemul",
             bootLoadSize := 4, bootInfoTable := true, efi := true }] } := by
  unfold make_bootable
  rw [hB, hU]

/-- Claim C9, witness: a concrete image staging both loader files receives
exactly the BIOS entry followed by the UEFI entry. -/
theorem claim_C9_witness :
    make_bootable
      { rrRecords := [("/limine/limine-bios-cd.bin", "LIMINE-BIOS-CD.BIN"),
          ("/limine/limine-uefi-cd.bin", "LIMINE-UEFI-CD.BIN")],
        eltorito := [] } =
      Except.ok
        { rrRecords := [("/limine/limine-bios-cd.bin", "LIMINE-BIOS-CD.BIN"),
            ("/limine/limine-uefi-cd.bin", "LIMINE-UEFI-CD.BIN")],
          eltorito :=
            [{ bootFile := "/LIMINE/LIMINE-BIOS-CD.BIN", mediaName := "noemul",
               bootLoadSize := 4, bootInfoTable := true, efi := false },
             { bootFile := "/LIMINE/LIMINE-UEFI-CD.BIN", mediaName := "noemul",
               bootLoadSize := 4, bootInfoTable := true, efi := true }] } := by
  rw [claim_C9_theorem _ "LIMINE-BIOS-CD.BIN" "LIMINE-UEFI-CD.BIN" (by decide) (by decide)]
  rfl

/-- Claim C10: a filename whose uppercased base is at most eight characters
of the allowed charset and whose extension is at most four characters
(counting the dot) with every character after the dot in the charset is
already compliant: make_iso_compliant returns exactly the uppercased input
and leaves the numbering dict untouched. -/
theorem claim_C10_theorem (file : String) (m : ComplianceMap)
    (h8 : (upperBase file).length ≤ 8)
    (hb : ∀ c ∈ upperBase file, c ∈ VALID_ISO_CHARS)
    (h4 : (upperExt file).length ≤ 4)
    (he : ∀ c ∈ (upperExt file).drop 1, c ∈ VALID_ISO_CHARS) :
    makeIsoCompliant file m = (String.mk (file.data.map Char.toUpper), m) := by
  have hsan : sanBase file = upperBase file := by
    unfold sanBase
    have hid : ∀ c ∈ upperBase file, sanitizeChar c = c := by
      intro c hc
      unfold sanitizeChar
      rw [if_pos (hb c hc)]
    calc (upperBase file).map sanitizeChar
        = (upperBase file).map id := List.map_congr_left hid
      _ = upperBase file := List.map_id _
  have hnc : ¬ nonCompliant file := by
    unfold nonCompliant
    push_neg
    constructor
    · rw [hsan]
      omega
    · rw [hsan]
  rw [makeIso_c file m hnc, hsan]
  have hfix : fixExt (upperExt file) = upperExt file := by
    unfold fixExt
    rw [if_neg ?_]
    rintro (hlen | hany)
    · omega
    · rw [List.any_eq_true] at hany
      obtain ⟨c, hc, hval⟩ := hany
      rw [decide_eq_true_eq] at hval
      exact hval (he c hc)
  rw [hfix]
  have hcat : upperBase file ++ upperExt file = file.data.map Char.toUpper := by
    unfold upperBase upperExt
    rw [← List.map_append, splitextList_append]
  rw [hcat]

/-- Claim C10, witness: "kernel.elf" is already compliant and maps to
"KERNEL.ELF" with the numbering dict untouched. -/
theorem claim_C10_witness :
    makeIsoCompliant "kernel.elf" ISO_NUMBERING_init =
      ("KERNEL.ELF", ISO_NUMBERING_init) := by
  rw [claim_C10_theorem ("kernel.elf") ISO_NUMBERING_init (by decide) (by decide)
    (by decide) (by decide)]
  decide

/-- Claim C3: within one packaging run started from a fresh dict, the first
non-compliant filename truncating to a prefix gets sequence number 1 and
advances the counter to 2; a later non-compliant filename with the same
prefix gets the stored counter value and advances it again; sequence
numbers for a prefix strictly increase along the run and the produced
output names never collide. -/
theorem claim_C3_theorem (files : List String) (i j : Nat) (p : String)
    (hij : i < j) (hj : j < files.length)
    (hi : nonCompliant (files.getD i ""))
    (hpi : pfxOf (files.getD i "") = p)
    (hjn : nonCompliant (files.getD j ""))
    (hpj : pfxOf (files.getD j "") = p) :
    (mapFind (mapBefore files i) p = none →
      numberAt files i = 1 ∧ mapFind (mapBefore files (i + 1)) p = some 2) ∧
    (∀ k, mapFind (mapBefore files i) p = some k →
      numberAt files i = k ∧ mapFind (mapBefore files (i + 1)) p = some (k + 1)) ∧
    numberAt files i < numberAt files j ∧
    outputAt files i ≠ outputAt files j := by
  have hiLen : i < files.length := Nat.lt_trans hij hj
  have hstep := mapBefore_succ files i hiLen
  have hnci := makeIso_nc (files.getD i "") (mapBefore files i) hi
  have hnum_i : numberAt files i = seqOf (mapBefore files i) p := by
    unfold numberAt
    rw [hpi]
  have hnum_j : numberAt files j = seqOf (mapBefore files j) p := by
    unfold numberAt
    rw [hpj]
  have hkey : mapFind (mapBefore files (i + 1)) p =
      some (seqOf (mapBefore files i) p + 1) := by
    rw [hstep]
    unfold isoStep
    rw [hnci]
    show mapFind (mapSet (mapBefore files i) (pfxOf (files.getD i ""))
      (seqOf (mapBefore files i) (pfxOf (files.getD i "")) + 1)) p = _
    rw [hpi, mapFind_set_self]
  have hmono : seqOf (mapBefore files (i + 1)) p ≤ seqOf (mapBefore files j) p :=
    mapBefore_mono files (i + 1) j hij p
  have hsucc : seqOf (mapBefore files (i + 1)) p = seqOf (mapBefore files i) p + 1 := by
    unfold seqOf
    rw [hkey]
    rfl
  refine ⟨?_, ?_, ?_, ?_⟩
  · intro h0
    have hs1 : seqOf (mapBefore files i) p = 1 := by
      unfold seqOf
      rw [h0]
      rfl
    exact ⟨by rw [hnum_i, hs1], by rw [hkey, hs1]⟩
  · intro k h0
    have hsk : seqOf (mapBefore files i) p = k := by
      unfold seqOf
      rw [h0]
      rfl
    exact ⟨by rw [hnum_i, hsk], by rw [hkey, hsk]⟩
  · rw [hnum_i, hnum_j]
    omega
  · intro heq
    have hncj := makeIso_nc (files.getD j "") (mapBefore files j) hjn
    have hoi : outputAt files i =
        String.mk ((sanBase (files.getD i "")).take 6 ++
          pad2 (seqOf (mapBefore files i) (pfxOf (files.getD i ""))) ++
            fixExt (upperExt (files.getD i ""))) := by
      unfold outputAt
      rw [hnci]
    have hoj : outputAt files j =
        String.mk ((sanBase (files.getD j "")).take 6 ++
          pad2 (seqOf (mapBefore files j) (pfxOf (files.getD j ""))) ++
            fixExt (upperExt (files.getD j ""))) := by
      unfold outputAt
      rw [hncj]
    rw [hoi, hoj] at heq
    injection heq with heq
    have hdi : (sanBase (files.getD i "")).take 6 = p.data := congrArg String.data hpi
    have hdj : (sanBase (files.getD j "")).take 6 = p.data := congrArg String.data hpj
    rw [hpi, hpj, hdi, hdj, List.append_assoc, List.append_assoc] at heq
    have hcan := List.append_cancel_left heq
    have hv1 : digitPfxVal (pad2 (seqOf (mapBefore files i) p) ++
        fixExt (upperExt (files.getD i ""))) 0 = seqOf (mapBefore files i) p :=
      digitPfxVal_pad2 _ _ (fixExt_shape _ (upperExt_shape _))
    have hv2 : digitPfxVal (pad2 (seqOf (mapBefore files j) p) ++
        fixExt (upperExt (files.getD j ""))) 0 = seqOf (mapBefore files j) p :=
      digitPfxVal_pad2 _ _ (fixExt_shape _ (upperExt_shape _))
    rw [hcan, hv2] at hv1
    omega

/-- Claim C3, witness: in the run [longfilenamea.bin, longfilenameb.bin],
the first file gets LONGFI01.BIN and advances the LONGFI counter to 2, the
second gets the strictly larger number 02 and a distinct name. -/
theorem claim_C3_witness :
    numberAt ["longfilenamea.bin", "longfilenameb.bin"] 0 <
      numberAt ["longfilenamea.bin", "longfilenameb.bin"] 1 ∧
    outputAt ["longfilenamea.bin", "longfilenameb.bin"] 0 ≠
      outputAt ["longfilenamea.bin", "longfilenameb.bin"] 1 ∧
    numberAt ["longfilenamea.bin", "longfilenameb.bin"] 0 = 1 ∧
    mapFind (mapBefore ["longfilenamea.bin", "longfilenameb.bin"] 1) "LONGFI" =
      some 2 ∧
    outputAt ["longfilenamea.bin", "longfilenameb.bin"] 0 = "LONGFI01.BIN" ∧
    outputAt ["longfilenamea.bin", "longfilenameb.bin"] 1 = "LONGFI02.BIN" := by
  have ht := claim_C3_theorem ["longfilenamea.bin", "longfilenameb.bin"] 0 1 "LONGFI"
    (by decide) (by decide) (by decide) (by decide) (by decide) (by decide)
  have hfirst := ht.1 (by decide)
  exact ⟨ht.2.2.1, ht.2.2.2, hfirst.1, hfirst.2, by decide, by decide⟩

/-- Claim C5, amended: a packaging run's image actions are exactly one
image creation, then additions (directories and files interleaved per
walked directory), then exactly one boot registration, one serialization
and one close; within each walked directory its subdirectory additions
precede its file additions (a subdirectory of a later-walked directory
may be added after an earlier directory's files); serialization occurs
exactly once; and a failing action stops the run so that no action after
the first failing one is attempted. -/
theorem claim_C5_theorem :
    (∀ (tree : DirTree) (m0 : ComplianceMap),
      ∃ body, packageEvents tree m0 =
          PackEvent.isoNew :: body ++
            [PackEvent.makeBootableStep, PackEvent.writeFp, PackEvent.closeIso] ∧
        ∀ e ∈ body, isAdd e = true) ∧
    (∀ (m : ComplianceMap) (root : String) (dirs files : List String)
        (rest : List (String × List String × List String)),
      ∃ de fe tl, (walkEvents m ((root, dirs, files) :: rest)).1 = de ++ fe ++ tl ∧
        (∀ e ∈ de, isAddDir e = true) ∧ (∀ e ∈ fe, isAddFile e = true)) ∧
    (∀ (tree : DirTree) (m0 : ComplianceMap),
      List.count PackEvent.writeFp (packageEvents tree m0) = 1) ∧
    (∀ (tree : DirTree) (m0 : ComplianceMap) (ok : PackEvent → Bool),
      (execute ok (packageEvents tree m0)).2 = false →
      ∃ pre e post, packageEvents tree m0 = pre ++ e :: post ∧
        (execute ok (packageEvents tree m0)).1 = pre ++ [e] ∧
        ok e = false ∧ ∀ x ∈ pre, ok x = true) := by
  refine ⟨?_, ?_, ?_, ?_⟩
  · intro tree m0
    exact ⟨(walkEvents m0 (walk "disk" tree)).1, rfl, walkEvents_all _ m0⟩
  · intro m root dirs files rest
    refine ⟨dirEvents (isoRootOf root) dirs,
      (fileEvents (isoRootOf root) m files).1,
      (walkEvents (fileEvents (isoRootOf root) m files).2 rest).1, rfl,
      dirEvents_all _ _, fileEvents_all _ _ m⟩
  · intro tree m0
    have h0 : List.count PackEvent.writeFp (walkEvents m0 (walk "disk" tree)).1 = 0 :=
      List.count_eq_zero.2 (walkEvents_no_write _ _)
    show List.count PackEvent.writeFp
      (PackEvent.isoNew :: (walkEvents m0 (walk "disk" tree)).1 ++
        [PackEvent.makeBootableStep, PackEvent.writeFp, PackEvent.closeIso]) = 1
    rw [show (PackEvent.isoNew :: (walkEvents m0 (walk "disk" tree)).1 ++
        [PackEvent.makeBootableStep, PackEvent.writeFp, PackEvent.closeIso]) =
      [PackEvent.isoNew] ++ ((walkEvents m0 (walk "disk" tree)).1 ++
        [PackEvent.makeBootableStep, PackEvent.writeFp, PackEvent.closeIso]) from rfl]
    rw [List.count_append, List.count_append, h0]
    decide
  · intro tree m0 ok h
    exact execute_fail ok (packageEvents tree m0) h

/-- Claim C5, counterexample: for a staging tree with a file a.txt at the
root and a nested directory sub/subsub, the walk loop adds the file
/A.TXT;1 (position 2) before the directory /SUB/SUBSUB (position 3), so it
is not the case that every directory is added to the image before any
file. -/
theorem claim_C5_counterexample :
    packageEvents
        (DirTree.node [("sub", DirTree.node [("subsub", DirTree.node [] [])] [])]
          ["a.txt"]) ISO_NUMBERING_init =
      [PackEvent.isoNew, PackEvent.addDirectory "/SUB" "sub",
        PackEvent.addFile "/A.TXT;1" "a.txt",
        PackEvent.addDirectory "/SUB/SUBSUB" "subsub",
        PackEvent.makeBootableStep, PackEvent.writeFp, PackEvent.closeIso] ∧
    ∃ i j, i < j ∧
      isAddFile ((packageEvents (DirTree.node
          [("sub", DirTree.node [("subsub", DirTree.node [] [])] [])] ["a.txt"])
            ISO_NUMBERING_init).getD i PackEvent.isoNew) = true ∧
      isAddDir ((packageEvents (DirTree.node
          [("sub", DirTree.node [("subsub", DirTree.node [] [])] [])] ["a.txt"])
            ISO_NUMBERING_init).getD j PackEvent.isoNew) = true := by
  refine ⟨by decide, 2, 3, by decide, by decide, by decide⟩

/-- Claim C5, witness: on the empty staging tree, making the serialization
step fail lets the image creation and boot registration run, attempts the
serialization, and prevents the close step from being attempted. -/
theorem claim_C5_witness :
    ∃ pre e post,
      packageEvents (DirTree.node [] []) ISO_NUMBERING_init = pre ++ e :: post ∧
      (execute (fun x => decide (x ≠ PackEvent.writeFp))
        (packageEvents (DirTree.node [] []) ISO_NUMBERING_init)).1 = pre ++ [e] ∧
      decide (e ≠ PackEvent.writeFp) = false ∧
      ∀ x ∈ pre, decide (x ≠ PackEvent.writeFp) = true := by
  exact claim_C5_theorem.2.2.2 (DirTree.node [] []) ISO_NUMBERING_init
    (fun x => decide (x ≠ PackEvent.writeFp)) (by decide)
